import Mathlib

/-!
Verification of the gog-unpacker manifest-generation logic.

This file is a shallow embedding of the decision logic of
`src/services/manifest_generator.py`, `src/utils.py` and the manifest-consuming
loop of `src/unpack.py`, together with theorems settling the specification
claims about that logic.

Modelling conventions:

* Python strings are modelled as `List Char` internally (wrapped in `String`
  at API boundaries) so that all definitions kernel-evaluate.
* The filesystem is modelled by an explicit `FS` record of pure functions
  (`isdir`, `pathExists`, `listdir`); a directory's contents are the list of
  names `listdir` returns, in enumeration order.  Within a single game folder
  files are identified by their basenames: `os.path.join(dir, name)` followed
  by `os.path.relpath(·, dir)` is the identity on names, so joining/relpath
  inside one folder is elided.
* Python's `re` semantics are embedded where the code uses regexes:
  `.` matches any character except a newline, character classes are modelled
  by explicit character predicates, greedy quantifiers by backtracking
  matchers.  `\w` and `\s` are modelled at their ASCII subsets.
* Machine integers do not occur: the only parsed number (a version token) is
  an arbitrary-precision Python `int`, modelled as `Nat` (the parsed text is
  a digit string, so it is non-negative).
-/

/-- ASCII whitespace characters recognised by Python's `str.strip` / `\s`. -/
def pyIsSpace (c : Char) : Bool :=
  c = ' ' || c = '\t' || c = '\n' || c = '\r' || c = '\x0b' || c = '\x0c'

/-- Python `str.strip()`: drop leading and trailing whitespace. -/
def pyStrip (l : List Char) : List Char :=
  ((l.dropWhile pyIsSpace).reverse.dropWhile pyIsSpace).reverse

/-- Python `str.lower()` (ASCII model). -/
def pyLower (l : List Char) : List Char :=
  l.map Char.toLower

/-- Characters of the regex class `[\w\-]` (ASCII model of `\w` plus hyphen),
used by the metadata-file key pattern in `src/utils.py`. -/
def isWordChar (c : Char) : Bool :=
  c.isAlphanum || c = '_' || c = '-'

/-- Characters of the regex class `[a-zA-Z0-9_.]` used by the gog-games
folder-name pattern in `_get_latest_source_folder_by_game_key`. -/
def isKeyChar (c : Char) : Bool :=
  c.isAlphanum || c = '_' || c = '.'

/-- Characters of the regex class `[\d\.]` (version text). -/
def isVerChar (c : Char) : Bool :=
  c.isDigit || c = '.'

/-- Characters of the regex class `[-_\s]` used when a clean key's underscores
are generalised to separators in installer-name patterns. -/
def isSepChar (c : Char) : Bool :=
  c = '-' || c = '_' || pyIsSpace c

/-! ## Ignore patterns (`_get_latest_source_folder_by_game_key`, lines 96-106)

The code compiles `re.escape(pattern).replace(r'\*', '.*')` and applies
`re.fullmatch` to the folder name.  After escaping, every pattern character
other than `*` matches itself literally, and each `*` becomes `.*`, i.e. a
greedy run of arbitrary characters *other than newline* (Python's `.` does
not match `'\n'`). -/

/-- One token of a compiled ignore pattern: a literal character or `.*`. -/
inductive GTok where
  | star : GTok
  | lit : Char → GTok
deriving DecidableEq

/-- Compile an ignore pattern: `*` becomes `.*`, anything else is literal. -/
def igToks (pat : List Char) : List GTok :=
  pat.map (fun c => if c = '*' then GTok.star else GTok.lit c)

/-- Backtracking loop for `.*`: try the continuation `k` at every suffix of
the text reachable by consuming non-newline characters. -/
def gStarLoop (k : List Char → Bool) : List Char → Bool
  | [] => k []
  | c :: cs => k (c :: cs) || (decide (c ≠ '\n') && gStarLoop k cs)

/-- Anchored full match of a compiled ignore pattern against a name, with
Python semantics for `.*` (a `.` never matches a newline). -/
def gMatch : List GTok → List Char → Bool
  | [], s => s.isEmpty
  | GTok.lit _ :: _, [] => false
  | GTok.lit p :: ts, c :: cs => p = c && gMatch ts cs
  | GTok.star :: ts, s => gStarLoop (gMatch ts) s

/-- `re.fullmatch(re.escape(p).replace(r'\*', '.*'), name)` as a Boolean. -/
def igFullmatch (pat name : String) : Bool :=
  gMatch (igToks pat.data) name.data

/-- Backtracking loop for the spec's reading of `*`: any suffix is
reachable. -/
def specStarLoop (k : List Char → Bool) : List Char → Bool
  | [] => k []
  | c :: cs => k (c :: cs) || specStarLoop k cs

/-- Modelled from the spec: the claim's reading of glob matching, in which
`*` matches *any* character sequence (newlines included).  Used only to
compare the spec's wording with the code's `.*` semantics. -/
def specStarMatch : List GTok → List Char → Bool
  | [], s => s.isEmpty
  | GTok.lit _ :: _, [] => false
  | GTok.lit p :: ts, c :: cs => p = c && specStarMatch ts cs
  | GTok.star :: ts, s => specStarLoop (specStarMatch ts) s

/-- Spec-reading full match on `String`s. -/
def specFullmatch (pat name : String) : Bool :=
  specStarMatch (igToks pat.data) name.data

/-! ## gog-games folder-name pattern (line 114)

`re.match(r"([a-zA-Z0-9_.]+)_windows_gog_\(([\d\.]+)\)", name)`: an anchored
prefix match with a greedy first group.  Greediness with backtracking means
the *longest* key-character prefix followed by the literal
`_windows_gog_(`, a non-empty digit/dot run and `)` wins.  Inside the
version group no backtracking is possible (a shorter digit/dot run is never
followed by `)`), so only the group-1 length backtracks. -/

/-- The literal `_windows_gog_(` of the pattern. -/
def litWG : List Char := "_windows_gog_(".data

/-- `int(version_str)` after `version_str = group(2).replace('.', '')`:
`None` when the digit string is empty (ValueError), the numeral otherwise. -/
def parseVer (d : List Char) : Option Nat :=
  let digits := d.filter Char.isDigit
  if digits.isEmpty then none
  else some (digits.foldl (fun n c => n * 10 + (c.toNat - '0'.toNat)) 0)

/-- Try group-1 lengths `L, L-1, ..., 1` (longest first, regex greediness). -/
def gogTryLens : Nat → List Char → Option (String × Option Nat)
  | 0, _ => none
  | L + 1, cs =>
      let g1 := cs.take (L + 1)
      let rest := cs.drop (L + 1)
      if rest.take litWG.length = litWG then
        let r2 := rest.drop litWG.length
        let d := r2.takeWhile isVerChar
        if !d.isEmpty && (r2.drop d.length).head? = some ')' then
          some (String.mk g1, parseVer d)
        else gogTryLens L cs
      else gogTryLens L cs

/-- `re.match` of the gog-games pattern: on success, the extracted game key
(group 1) and the optional numeric version token. -/
def gogMatch (name : String) : Option (String × Option Nat) :=
  let cs := name.data
  gogTryLens (cs.takeWhile isKeyChar).length cs

/-! ## Grouping and latest-version selection (lines 88-136) -/

/-- Key and version extraction per source folder: for `"gog-games"` sources
the structured pattern is tried, otherwise (or on no match) the raw folder
name is the key and the version token is `None`. -/
def extractKeyVer (sourceType : String) (name : String) : String × Option Nat :=
  if sourceType = "gog-games" then
    match gogMatch name with
    | some kv => kv
    | none => (name, none)
  else (name, none)

/-- `dict.setdefault(key, []).append(tup)` on an insertion-ordered
association list. -/
def addToGroups (gs : List (String × List (Option Nat × String)))
    (key : String) (tup : Option Nat × String) :
    List (String × List (Option Nat × String)) :=
  if gs.any (fun g => decide (g.1 = key)) then
    gs.map (fun g => if g.1 = key then (g.1, g.2 ++ [tup]) else g)
  else gs ++ [(key, [tup])]

/-- The scan loop of `_get_latest_source_folder_by_game_key`: skip ignored
names, then group `(package_version, folder_name)` tuples by game key. -/
def groupFold (sourceType : String) (ignores : List String)
    (names : List String) : List (String × List (Option Nat × String)) :=
  names.foldl
    (fun gs name =>
      if ignores.any (fun p => igFullmatch p name) then gs
      else
        let kv := extractKeyVer sourceType name
        addToGroups gs kv.1 (kv.2, name))
    []

/-- Strict comparison of the Python sort keys `(x[0] is None, x[0])`:
`(True, None)` is greater than every `(False, v)`, and among non-null
versions the larger integer is greater. -/
def verKeyGt : Option Nat → Option Nat → Bool
  | none, none => false
  | none, some _ => true
  | some _, none => false
  | some a, some b => decide (a > b)

/-- Stable descending insertion: an earlier element passes a later one only
when the later one's key is strictly greater, exactly the equal-elements
behaviour of Python's stable `list.sort(reverse=True)`. -/
def insVer (x : Option Nat × String) :
    List (Option Nat × String) → List (Option Nat × String)
  | [] => [x]
  | y :: ys => if verKeyGt y.1 x.1 then y :: insVer x ys else x :: y :: ys

/-- `tuples.sort(reverse=True, key=lambda x: (x[0] is None, x[0]))`. -/
def sortVerDesc : List (Option Nat × String) → List (Option Nat × String)
  | [] => []
  | x :: xs => insVer x (sortVerDesc xs)

/-- `_get_latest_source_folder_by_game_key`: group the (non-ignored) folder
names, sort each group by the Python key descending, and keep each group's
first folder.  Groups are non-empty by construction; the `""` default is
never reached. -/
def groupLatest (sourceType : String) (names : List String)
    (ignores : List String) : List (String × String) :=
  (groupFold sourceType ignores names).map
    (fun g =>
      match sortVerDesc g.2 with
      | t :: _ => (g.1, t.2)
      | [] => (g.1, ""))

/-! ## Clean-key derivation (`_clean_game_key`, lines 138-147) -/

/-- `re.sub(suffix_pattern_anchored_at_end, '', l)`: drop the suffix if
present, otherwise return the list unchanged. -/
def stripSuffixL (l suf : List Char) : List Char :=
  if suf.isSuffixOf l then l.take (l.length - suf.length) else l

/-- `re.search(r'_(the|video|action|adventure|playing)_game$', l)` as a
Boolean: does `l` end with a qualified `_game` suffix? -/
def qualifiedGameSuffix (l : List Char) : Bool :=
  ["_the_game", "_video_game", "_action_game", "_adventure_game",
    "_playing_game"].any (fun s => s.data.isSuffixOf l)

/-- `_clean_game_key`: strip a trailing `_base_game`; strip a trailing
`_base` unless the key ends with `_second_base`; strip a trailing `_game`
unless it is qualified by the/video/action/adventure/playing. -/
def cleanGameKey (rawKey : String) : String :=
  let k1 := stripSuffixL rawKey.data "_base_game".data
  let k2 := if "_second_base".data.isSuffixOf k1 then k1
            else stripSuffixL k1 "_base".data
  let k3 := if qualifiedGameSuffix k2 then k2 else stripSuffixL k2 "_game".data
  String.mk k3

/-! ## Name sanitisation (`_clean_game_name`, lines 149-155) -/

/-- The characters `re.sub(r'[<>:"/\\|?*]', ' ', ·)` replaces by a space. -/
def isIllegalPathChar (c : Char) : Bool :=
  c = '<' || c = '>' || c = ':' || c = '"' || c = '/' || c = '\\' ||
    c = '|' || c = '?' || c = '*'

/-- Helper for `collapseWs`: the flag records whether we are inside a
whitespace run whose single replacement space was already emitted. -/
def collapseWsAux : Bool → List Char → List Char
  | _, [] => []
  | inRun, c :: cs =>
      if pyIsSpace c then
        if inRun then collapseWsAux true cs
        else ' ' :: collapseWsAux true cs
      else c :: collapseWsAux false cs

/-- `re.sub(r'\s+', ' ', ·)`: collapse each whitespace run to one space. -/
def collapseWs (l : List Char) : List Char :=
  collapseWsAux false l

/-- `_clean_game_name`: replace path-illegal characters with spaces, collapse
whitespace, strip. -/
def cleanGameName (rawName : String) : String :=
  String.mk (pyStrip (collapseWs
    (rawName.data.map (fun c => if isIllegalPathChar c then ' ' else c))))

/-! ## Installer discovery (`_get_base_installer_path`, lines 264-292, and
`_get_sorted_installers`, lines 240-262)

Files of a game folder are represented by their basenames (see the header
note): `glob.glob(os.path.join(dir, 'setup_*.exe'))` keeps, in enumeration
order, the names of shape `setup_` ++ anything ++ `.exe`, and
`os.path.exists(os.path.join(dir, b))` is membership of `b` in the folder
listing. -/

/-- The glob pattern `setup_*.exe` on a basename. -/
def globSetupExe (name : String) : Bool :=
  "setup_".data.isPrefixOf name.data &&
    ".exe".data.isSuffixOf (name.data.drop "setup_".data.length)

/-- `os.path.splitext(name)[0] + '-1.bin'` for a `*.exe` name: the companion
`.bin` basename of an installer. -/
def binCompanionName (p : String) : String :=
  String.mk (p.data.take (p.data.length - ".exe".data.length) ++ "-1.bin".data)

/-- Stable ascending insertion by name length: an earlier element passes a
later one only when the later one is strictly shorter, exactly Python's
stable `list.sort(key=lambda x: len(os.path.basename(x)))`. -/
def insLen (x : String) : List String → List String
  | [] => [x]
  | y :: ys => if y.data.length < x.data.length then y :: insLen x ys
               else x :: y :: ys

/-- `all_paths.sort(key=lambda x: len(os.path.basename(x)))`. -/
def sortByLen : List String → List String
  | [] => []
  | x :: xs => insLen x (sortByLen xs)

/-- One token of the compiled `setup_<key>` prefix pattern: a literal
character of the pattern or the class `[-_\s]+` (an underscore of the clean
key generalised to a separator run). -/
inductive PTok where
  | sep : PTok
  | lit : Char → PTok
deriving DecidableEq

/-- Literal-character match under `re.IGNORECASE`; a literal `.` of the
pattern (clean keys may contain dots) is the regex wildcard. -/
def charMatch (p c : Char) : Bool :=
  p = '.' || p.toLower = c.toLower

/-- Backtracking loop for `[-_\s]+`: consume at least one separator
character, then try the continuation `k` after each further one. -/
def pSepLoop (k : List Char → Bool) : List Char → Bool
  | [] => false
  | c :: cs => isSepChar c && (k cs || pSepLoop k cs)

/-- Anchored prefix match (`re.match`) of the compiled pattern, with greedy
backtracking for each `[-_\s]+` separator run. -/
def pMatch : List PTok → List Char → Bool
  | [], _ => true
  | PTok.lit _ :: _, [] => false
  | PTok.lit p :: ts, c :: cs => charMatch p c && pMatch ts cs
  | PTok.sep :: ts, s => pSepLoop (pMatch ts) s

/-- The compiled pattern `rf'^setup_{clean_key.replace("_", r"[-_\s]+")}'`. -/
def keyToks (cleanKey : String) : List PTok :=
  "setup_".data.map PTok.lit ++
    cleanKey.data.map (fun c => if c = '_' then PTok.sep else PTok.lit c)

/-- `main_installer_pattern.match(os.path.basename(p))` as a Boolean. -/
def keyPrefixMatch (cleanKey name : String) : Bool :=
  pMatch (keyToks cleanKey) name.data

/-- `_get_base_installer_path`: among `setup_*.exe` files sorted by basename
length, prefer one with a companion `-1.bin`, else the first matching the
`setup_<key>` prefix pattern, else the shortest-named one; `None` when no
candidate exists. -/
def getBaseInstallerPath (cleanKey : String) (files : List String) : Option String :=
  let allPaths := files.filter globSetupExe
  if allPaths.isEmpty then none
  else
    let sorted := sortByLen allPaths
    match sorted.find? (fun p => decide (binCompanionName p ∈ files)) with
    | some p => some p
    | none =>
      match sorted.filter (fun p => keyPrefixMatch cleanKey p) with
      | p :: _ => some p
      | [] => sorted.head?

/-- `_get_sorted_installers`: empty when no base installer is found; else the
base installer first, followed (unless `base_installer_only`) by every other
`setup_*.exe` in enumeration order. -/
def getSortedInstallers (cleanKey : String) (files : List String)
    (baseInstallerOnly : Bool) : List String :=
  match getBaseInstallerPath cleanKey files with
  | none => []
  | some basePath =>
      if baseInstallerOnly then [basePath]
      else basePath :: (files.filter globSetupExe).filter (fun p => p != basePath)

/-! ## Destination metadata files (`read_meta_file` / `create_meta_file`,
`src/utils.py` lines 39-88)

The metadata record is an insertion-ordered association list from keys to
nullable values, the Python `dict`.  `create_meta_file` is modelled as the
text it writes (the `!meta.txt` content); `read_meta_file` parses such text.
-/

/-- The line pattern `^\s*([\w\-]+)\s*:\s*(.*)` followed by the `.strip()`
of both groups: leading whitespace, then a non-empty greedy `[\w\-]+` key,
optional whitespace, a colon, and the stripped remainder as the value.
(The regex is deterministic here: the greedy key run cannot backtrack past a
word character, and `(.*)` takes the whole remainder of the line.) -/
def parseMetaLine (line : List Char) : Option (List Char × List Char) :=
  let afterWs := line.dropWhile pyIsSpace
  let key := afterWs.takeWhile isWordChar
  if key.isEmpty then none
  else
    match (afterWs.drop key.length).dropWhile pyIsSpace with
    | ':' :: rest => some (key, pyStrip rest)
    | _ => none

/-- `if value == '' or value.lower() == 'none': data[key] = None`. -/
def metaValueNorm (v : List Char) : Option (List Char) :=
  if v.isEmpty || pyLower v = "none".data then none else some v

/-- Python `dict` assignment `data[key] = value` on an insertion-ordered
association list: update in place when the key exists, append otherwise. -/
def dictInsert (d : List (List Char × Option (List Char)))
    (k : List Char) (v : Option (List Char)) :
    List (List Char × Option (List Char)) :=
  if d.any (fun kv => decide (kv.1 = k)) then
    d.map (fun kv => if kv.1 = k then (k, v) else kv)
  else d ++ [(k, v)]

/-- Split file content at newlines (`for line in f`, with the trailing
newline of each line immaterial to `parseMetaLine` because `(.*)` stops at
the newline and both groups are stripped). -/
def splitNl : List Char → List (List Char)
  | [] => [[]]
  | c :: cs =>
      if c = '\n' then [] :: splitNl cs
      else
        match splitNl cs with
        | h :: t => (c :: h) :: t
        | [] => [[c]]

/-- The parsing loop of `read_meta_file` over the file's lines. -/
def readMetaLines (lines : List (List Char)) :
    List (List Char × Option (List Char)) :=
  lines.foldl
    (fun d line =>
      match parseMetaLine line with
      | some kv => dictInsert d kv.1 (metaValueNorm kv.2)
      | none => d)
    []

/-- `read_meta_file` applied to the content of a `!meta.txt` file. -/
def read_meta_file (content : String) : List (String × Option String) :=
  (readMetaLines (splitNl content.data)).map
    (fun kv => (String.mk kv.1, kv.2.map String.mk))

/-- `str(value)` for a nullable value: `None` prints as `"None"`. -/
def metaValStr : Option (List Char) → List Char
  | none => "None".data
  | some v => v

/-- One written line `f"{str(key).strip()}: {str(value).strip()}\n"`. -/
def metaLine (k : List Char) (v : Option (List Char)) : List Char :=
  pyStrip k ++ ':' :: ' ' :: pyStrip (metaValStr v) ++ ['\n']

/-- The concatenated lines `create_meta_file` writes, over `List Char`
pairs. -/
def metaContent : List (List Char × Option (List Char)) → List Char
  | [] => []
  | kv :: t => metaLine kv.1 kv.2 ++ metaContent t

/-- `create_meta_file`: the `!meta.txt` content written for a record. -/
def create_meta_file (gameData : List (String × Option String)) : String :=
  String.mk (metaContent (gameData.map (fun kv => (kv.1.data, kv.2.map String.data))))

/-! ## Manifest generation (`generate_manifest`, lines 20-86) and the
manifest-consuming filter of `src/unpack.py` (lines 99-108) -/

/-- The filesystem as seen by the manifest generator: `os.path.isdir`,
`os.path.exists` and `os.listdir` as pure functions of the path. -/
structure FS where
  isdir : String → Bool
  pathExists : String → Bool
  listdir : String → List String

/-- One manifest entry (the per-game dictionary of `generate_manifest`). -/
structure ManifestRecord where
  game_name : String
  game_version : Option String
  source_directory : String
  destination_directory : String
  sorted_installers : List String
deriving DecidableEq, Repr

/-- The outcome of `generate_manifest`: the manifest mapping (insertion
ordered) and the path the manifest was persisted to, `none` when the early
return skipped persistence.  The function is total: no exception escapes. -/
structure GenResult where
  manifest : List (String × ManifestRecord)
  savedPath : Option String
deriving DecidableEq, Repr

/-- `os.path.join` for the paths this code builds (no trailing slashes). -/
def joinPath (a b : String) : String :=
  a ++ "/" ++ b

/-- The destination-search loop: first directory whose
`{dir}/{folder_name}` subpath exists (`os.path.exists`) and is non-empty
(`os.listdir(...)` truthy), searched in list order with `break`. -/
def chooseDestDirLoop (fs : FS) (folderName : String) : List String → Option String
  | [] => none
  | d :: ds =>
      let p := joinPath d folderName
      if fs.pathExists p && !(fs.listdir p).isEmpty then some p
      else chooseDestDirLoop fs folderName ds

/-- Destination choice of `generate_manifest` (lines 54-60): the loop's
result, defaulting to `default_dest_dir/{folder_name}`. -/
def chooseDestDir (fs : FS) (possibleDestDirs : List String)
    (defaultDestDir folderName : String) : String :=
  (chooseDestDirLoop fs folderName possibleDestDirs).getD
    (joinPath defaultDestDir folderName)

/-- `overrides.get(source_folder_name)` on an association list. -/
def ovGet (overrides : List (String × List String)) (folderName : String) :
    Option (List String) :=
  (overrides.find? (fun kv => decide (kv.1 = folderName))).map (fun kv => kv.2)

/-- Installer selection of `generate_manifest` (lines 62-71):
`if overrides.get(source_folder_name):` is a *truthiness* test, so a missing
key or an empty-list override both fall through to `_get_sorted_installers`.
-/
def selectInstallers (overrides : List (String × List String))
    (folderName cleanKey : String) (files : List String)
    (baseInstallerOnly : Bool) : List String :=
  match ovGet overrides folderName with
  | some l => if l.isEmpty then getSortedInstallers cleanKey files baseInstallerOnly else l
  | none => getSortedInstallers cleanKey files baseInstallerOnly

/-- The loop body of `generate_manifest` building one manifest entry from a
`(game_key, source_folder_name)` pair chosen by the grouper.
`getGameDetails` abstracts `_get_game_details` (the name/version fallback
chain across `!info.txt`, the GOGDB cache and installer filenames): it is an
external collaborator for every claim below, mapping the clean key and the
game source directory to the resolved `(game_name, game_version)`. -/
def buildEntry (fs : FS)
    (getGameDetails : String → String → String × Option String)
    (sourceDir defaultDestDir : String) (possibleDestDirs : List String)
    (overrides : List (String × List String)) (baseInstallerOnly : Bool)
    (kf : String × String) : String × ManifestRecord :=
  let cleanKey := cleanGameKey kf.1
  let gameSourceDir := joinPath sourceDir kf.2
  let nv := getGameDetails cleanKey gameSourceDir
  let folderName := cleanGameName nv.1
  let gameDestDir := chooseDestDir fs possibleDestDirs defaultDestDir folderName
  let sortedInstallers :=
    selectInstallers overrides kf.2 cleanKey (fs.listdir gameSourceDir)
      baseInstallerOnly
  (kf.1,
    { game_name := folderName
      game_version := nv.2
      source_directory := gameSourceDir
      destination_directory := gameDestDir
      sorted_installers := sortedInstallers })

/-- `generate_manifest`: early empty return (with a logged warning, no
exception and no persisted file) when `source_dir` is not a directory;
otherwise one manifest entry per grouped game key, and the manifest is
persisted to `{manifests_output_dir}/{source_type}.json`. -/
def generateManifest (fs : FS)
    (getGameDetails : String → String → String × Option String)
    (manifestsOutputDir sourceType sourceDir defaultDestDir : String)
    (possibleDestDirs ignores : List String)
    (overrides : List (String × List String))
    (baseInstallerOnly : Bool) : GenResult :=
  if fs.isdir sourceDir then
    { manifest :=
        (groupLatest sourceType (fs.listdir sourceDir) ignores).map
          (buildEntry fs getGameDetails sourceDir defaultDestDir
            possibleDestDirs overrides baseInstallerOnly)
      savedPath := some (joinPath manifestsOutputDir (sourceType ++ ".json")) }
  else { manifest := [], savedPath := none }

/-- The per-game guard of `src/unpack.py` (lines 106-108): a game whose
`sorted_installers` is falsy (empty) is skipped; the games actually
processed are this filter of the manifest. -/
def unpackGamesToProcess (manifest : List (String × ManifestRecord)) :
    List (String × ManifestRecord) :=
  manifest.filter (fun kr => !kr.2.sorted_installers.isEmpty)

/-! ## Helper lemmas -/

theorem mem_insLen {x y : String} {l : List String} :
    y ∈ insLen x l ↔ y = x ∨ y ∈ l := by
  induction l with
  | nil => simp [insLen]
  | cons a t ih =>
      simp only [insLen]
      split
      · simp only [List.mem_cons, ih]
        tauto
      · simp only [List.mem_cons]

theorem mem_sortByLen {y : String} {l : List String} :
    y ∈ sortByLen l ↔ y ∈ l := by
  induction l with
  | nil => simp [sortByLen]
  | cons a t ih => simp [sortByLen, mem_insLen, ih]

theorem length_insLen (x : String) (l : List String) :
    (insLen x l).length = l.length + 1 := by
  induction l with
  | nil => rfl
  | cons a t ih =>
      simp only [insLen]
      split
      · simp [ih]
      · simp

theorem length_sortByLen (l : List String) :
    (sortByLen l).length = l.length := by
  induction l with
  | nil => rfl
  | cons a t ih => simp [sortByLen, length_insLen, ih]

theorem sortByLen_ne_nil {l : List String} (h : l ≠ []) : sortByLen l ≠ [] := by
  intro hs
  apply h
  have := length_sortByLen l
  rw [hs] at this
  exact List.length_eq_zero.mp this.symm

/-- When some `setup_*.exe` candidate exists, `_get_base_installer_path`
returns one (each of its three branches produces a path). -/
theorem getBase_some (cleanKey : String) (files : List String)
    (h : (files.filter globSetupExe).isEmpty = false) :
    ∃ b, getBaseInstallerPath cleanKey files = some b := by
  cases hf : (sortByLen (files.filter globSetupExe)).find?
      (fun p => decide (binCompanionName p ∈ files)) with
  | some p => exact ⟨p, by simp [getBaseInstallerPath, h, hf]⟩
  | none =>
      cases hg : (sortByLen (files.filter globSetupExe)).filter
          (fun p => keyPrefixMatch cleanKey p) with
      | cons p t => exact ⟨p, by simp [getBaseInstallerPath, h, hf, hg]⟩
      | nil =>
          have hs : sortByLen (files.filter globSetupExe) ≠ [] := by
            apply sortByLen_ne_nil
            intro hx
            rw [hx] at h
            exact absurd h (by decide)
          have hgoal : getBaseInstallerPath cleanKey files
              = (sortByLen (files.filter globSetupExe)).head? := by
            simp [getBaseInstallerPath, h, hf, hg]
          cases hq : sortByLen (files.filter globSetupExe) with
          | nil => exact absurd hq hs
          | cons q t =>
              rw [hq] at hgoal
              exact ⟨q, hgoal⟩

/-! ## C1 -/

/-- Claim C1 (code bug): the grouper does *not* rank non-null version tokens
above null ones.  The key `(x[0] is None, x[0])` combined with
`reverse=True` sorts null-token folders *first*.  Concretely, under source
type `gog-games` the folders `game_windows_gog_(1.0.0)` (key `game`, token
`100`) and `game` (no pattern match, key `game`, token null) share one game
key, and the grouper selects the null-token folder `game` as "latest",
contradicting the claimed ordering; the claim's own example (tokens 100 vs
120, no null) still selects the greater token. -/
theorem c1_code_eval :
    extractKeyVer "gog-games" "game_windows_gog_(1.0.0)" = ("game", some 100)
    ∧ extractKeyVer "gog-games" "game" = ("game", none)
    ∧ groupLatest "gog-games" ["game_windows_gog_(1.0.0)", "game"] []
        = [("game", "game")]
    ∧ groupLatest "gog-games"
        ["game_windows_gog_(1.0.0)", "game_windows_gog_(1.2.0)"] []
        = [("game", "game_windows_gog_(1.2.0)")] := by
  decide

/-! ## C2 -/

/-- Claim C2 (counterexample): `_clean_game_key` is not idempotent
(`x_game_game` cleans to `x_game`, which cleans again to `x`), and
`second_base_base` is not preserved (it cleans to `second_base`: the
`_second` guard requires the suffix `_second_base`, which
`second_base_base` does not end with). -/
theorem c2_counterexample :
    cleanGameKey (cleanGameKey "x_game_game") ≠ cleanGameKey "x_game_game"
    ∧ cleanGameKey "second_base_base" ≠ "second_base_base" := by
  decide

/-- A string ending in none of the strippable suffixes is a fixed point of
`_clean_game_key`. -/
theorem cleanGameKey_fixed (s : String)
    (g1 : "_base_game".data.isSuffixOf s.data = false)
    (g2 : "_base".data.isSuffixOf s.data = false)
    (g3 : "_game".data.isSuffixOf s.data = false) :
    cleanGameKey s = s := by
  have e1 : stripSuffixL s.data "_base_game".data = s.data := by
    simp [stripSuffixL, g1]
  have e2 : stripSuffixL s.data "_base".data = s.data := by
    simp [stripSuffixL, g2]
  have e3 : stripSuffixL s.data "_game".data = s.data := by
    simp [stripSuffixL, g3]
  simp [cleanGameKey, e1, e2, e3]

/-- Claim C2 (amended): clean-key stripping is idempotent on every raw key
whose once-cleaned form ends in none of `_base_game`, `_base`, `_game` (in
general a second application can strip a suffix the first application
exposed); `second_base_base` cleans to `second_base`, keys actually ending
in `_second_base` (such as `x_second_base`) are preserved, and
`foo_base` cleans to `foo`. -/
theorem c2_amended :
    (∀ k : String,
        "_base_game".data.isSuffixOf (cleanGameKey k).data = false →
        "_base".data.isSuffixOf (cleanGameKey k).data = false →
        "_game".data.isSuffixOf (cleanGameKey k).data = false →
        cleanGameKey (cleanGameKey k) = cleanGameKey k)
    ∧ cleanGameKey "second_base_base" = "second_base"
    ∧ cleanGameKey "x_second_base" = "x_second_base"
    ∧ cleanGameKey "foo_base" = "foo" := by
  refine ⟨?_, by decide, by decide, by decide⟩
  intro k h1 h2 h3
  exact cleanGameKey_fixed (cleanGameKey k) h1 h2 h3

/-- Witness for C2 (amended), at the concrete key `hello_base`. -/
theorem c2_amended_witness :
    ("_base_game".data.isSuffixOf (cleanGameKey "hello_base").data = false
      ∧ "_base".data.isSuffixOf (cleanGameKey "hello_base").data = false
      ∧ "_game".data.isSuffixOf (cleanGameKey "hello_base").data = false)
    ∧ cleanGameKey (cleanGameKey "hello_base") = cleanGameKey "hello_base" :=
  ⟨⟨by decide, by decide, by decide⟩,
    c2_amended.1 "hello_base" (by decide) (by decide) (by decide)⟩

/-! ## C3 -/

/-- Claim C3 (confirmed): whenever any `setup_*.exe` candidate in the folder
has a companion `<name-without-ext>-1.bin` file, the selected base installer
is such a candidate — the companion-`.bin` rule fires before the
`setup_<key>` prefix rule and the shortest-name fallback, whatever the
filename lengths are. -/
theorem c3_bin_wins :
    ∀ (cleanKey : String) (files : List String) (c : String),
      c ∈ files.filter globSetupExe →
      binCompanionName c ∈ files →
      ∃ r, getBaseInstallerPath cleanKey files = some r
        ∧ binCompanionName r ∈ files := by
  intro cleanKey files c hc hbin
  have hne : (files.filter globSetupExe).isEmpty = false := by
    cases hx : files.filter globSetupExe with
    | nil => rw [hx] at hc; cases hc
    | cons a t => rfl
  cases hf : (sortByLen (files.filter globSetupExe)).find?
      (fun p => decide (binCompanionName p ∈ files)) with
  | some r =>
      refine ⟨r, by simp [getBaseInstallerPath, hne, hf], ?_⟩
      have hr := List.find?_some hf
      simp only [decide_eq_true_eq] at hr
      exact hr
  | none =>
      exfalso
      have hmem : c ∈ sortByLen (files.filter globSetupExe) :=
        mem_sortByLen.mpr hc
      have hsome : ((sortByLen (files.filter globSetupExe)).find?
          (fun p => decide (binCompanionName p ∈ files))).isSome :=
        List.find?_isSome.mpr ⟨c, hmem, decide_eq_true hbin⟩
      rw [hf] at hsome
      cases hsome

/-- Witness for C3: `setup_ab.exe` has the companion `setup_ab-1.bin`, so it
wins although `setup_a.exe` is shorter and matches the key pattern. -/
theorem c3_bin_wins_witness :
    ("setup_ab.exe" ∈
        (["setup_ab.exe", "setup_ab-1.bin", "setup_a.exe"] : List String).filter
          globSetupExe
      ∧ binCompanionName "setup_ab.exe" ∈
        (["setup_ab.exe", "setup_ab-1.bin", "setup_a.exe"] : List String))
    ∧ ∃ r,
        getBaseInstallerPath "a" ["setup_ab.exe", "setup_ab-1.bin", "setup_a.exe"]
          = some r
        ∧ binCompanionName r ∈
          (["setup_ab.exe", "setup_ab-1.bin", "setup_a.exe"] : List String) :=
  ⟨⟨by decide, by decide⟩,
    c3_bin_wins "a" ["setup_ab.exe", "setup_ab-1.bin", "setup_a.exe"]
      "setup_ab.exe" (by decide) (by decide)⟩

/-! ## C8 -/

/-- Claim C8 (confirmed): in base-only mode the installer list has length at
most one — empty exactly when no `setup_*.exe` candidate exists, and
exactly the single base installer otherwise. -/
theorem c8_base_only :
    ∀ (cleanKey : String) (files : List String),
      (getSortedInstallers cleanKey files true).length ≤ 1
      ∧ (files.filter globSetupExe = [] →
          getSortedInstallers cleanKey files true = [])
      ∧ (files.filter globSetupExe ≠ [] →
          ∃ b, getBaseInstallerPath cleanKey files = some b
            ∧ getSortedInstallers cleanKey files true = [b]) := by
  intro cleanKey files
  refine ⟨?_, ?_, ?_⟩
  · unfold getSortedInstallers
    cases h : getBaseInstallerPath cleanKey files <;> simp
  · intro h
    have hb : getBaseInstallerPath cleanKey files = none := by
      simp [getBaseInstallerPath, h]
    simp [getSortedInstallers, hb]
  · intro h
    have hne : (files.filter globSetupExe).isEmpty = false := by
      cases hx : files.filter globSetupExe with
      | nil => exact absurd hx h
      | cons a t => rfl
    obtain ⟨b, hb⟩ := getBase_some cleanKey files hne
    exact ⟨b, hb, by simp [getSortedInstallers, hb]⟩

/-- Witness for C8, at a folder holding one installer. -/
theorem c8_base_only_witness :
    ((["setup_a.exe", "readme.txt"] : List String).filter globSetupExe ≠ [])
    ∧ ∃ b, getBaseInstallerPath "a" ["setup_a.exe", "readme.txt"] = some b
        ∧ getSortedInstallers "a" ["setup_a.exe", "readme.txt"] true = [b] :=
  ⟨by decide, (c8_base_only "a" ["setup_a.exe", "readme.txt"]).2.2 (by decide)⟩

/-! ## C4 -/

/-- Claim C4 (counterexample): with the override map `{"f": []}` the
truthiness test `if overrides.get(source_folder_name):` is false, so the
empty-list override is *not* taken verbatim — the resolver runs and
returns the discovered installer. -/
theorem c4_counterexample :
    ovGet [("f", [])] "f" = some []
    ∧ selectInstallers [("f", [])] "f" "a" ["setup_a.exe"] false ≠ [] := by
  decide

/-- Claim C4 (amended): the manifest builder takes a folder's installer
ordering verbatim from the override value — unvalidated — exactly when the
folder maps to a *non-empty* list; a missing folder or an empty-list
override value falls through to the resolver.  The final conjunct ties the
statement to the builder: each manifest entry's installer list is
`selectInstallers` applied to the entry's source folder. -/
theorem c4_amended :
    ∀ (overrides : List (String × List String)) (folderName cleanKey : String)
      (files : List String) (baseOnly : Bool),
      (∀ l, ovGet overrides folderName = some l → l ≠ [] →
        selectInstallers overrides folderName cleanKey files baseOnly = l)
      ∧ (ovGet overrides folderName = none →
          selectInstallers overrides folderName cleanKey files baseOnly
            = getSortedInstallers cleanKey files baseOnly)
      ∧ (ovGet overrides folderName = some [] →
          selectInstallers overrides folderName cleanKey files baseOnly
            = getSortedInstallers cleanKey files baseOnly)
      ∧ (∀ (fs : FS) (g : String → String → String × Option String)
          (sourceDir defaultDestDir : String) (possibleDestDirs : List String)
          (kf : String × String),
          (buildEntry fs g sourceDir defaultDestDir possibleDestDirs overrides
              baseOnly kf).2.sorted_installers
            = selectInstallers overrides kf.2 (cleanGameKey kf.1)
                (fs.listdir (joinPath sourceDir kf.2)) baseOnly) := by
  intro overrides folderName cleanKey files baseOnly
  refine ⟨?_, ?_, ?_, ?_⟩
  · intro l h hne
    have hl : l.isEmpty = false := by
      cases hx : l with
      | nil => exact absurd hx hne
      | cons a t => rfl
    simp [selectInstallers, h, hl]
  · intro h
    simp [selectInstallers, h]
  · intro h
    simp [selectInstallers, h]
  · intro fs g sourceDir defaultDestDir possibleDestDirs kf
    rfl

/-- Witness for C4 (amended): a non-empty override is returned verbatim
(even though it names no real file), a missing folder uses the resolver. -/
theorem c4_amended_witness :
    (ovGet [("f", ["ghost.exe"])] "f" = some ["ghost.exe"]
      ∧ (["ghost.exe"] : List String) ≠ []
      ∧ selectInstallers [("f", ["ghost.exe"])] "f" "a" ["setup_a.exe"] false
          = ["ghost.exe"])
    ∧ (ovGet [("f", ["ghost.exe"])] "g" = none
      ∧ selectInstallers [("f", ["ghost.exe"])] "g" "a" ["setup_a.exe"] false
          = getSortedInstallers "a" ["setup_a.exe"] false) :=
  ⟨⟨by decide, by decide,
      (c4_amended [("f", ["ghost.exe"])] "f" "a" ["setup_a.exe"] false).1
        ["ghost.exe"] (by decide) (by decide)⟩,
    ⟨by decide,
      (c4_amended [("f", ["ghost.exe"])] "g" "a" ["setup_a.exe"] false).2.1
        (by decide)⟩⟩

/-! ## C5 -/

/-- The destination-search loop returns the first qualifying directory in
list order, as an Option-valued `find?`. -/
theorem chooseDestDirLoop_eq (fs : FS) (folderName : String) :
    ∀ dirs : List String,
      chooseDestDirLoop fs folderName dirs
        = (dirs.find? (fun d => fs.pathExists (joinPath d folderName)
            && !(fs.listdir (joinPath d folderName)).isEmpty)).map
            (fun d => joinPath d folderName) := by
  intro dirs
  induction dirs with
  | nil => rfl
  | cons d ds ih =>
      simp only [chooseDestDirLoop, List.find?]
      cases h : fs.pathExists (joinPath d folderName)
          && !(fs.listdir (joinPath d folderName)).isEmpty with
      | false => simp [h, ih]
      | true => simp [h]

/-- Claim C5 (confirmed): the chosen destination directory is
`{d}/{folder_name}` for the first `d` in `possible_dest_dirs` whose subpath
exists and is non-empty, else `default_dest_dir/{folder_name}` — the choice
depends only on `os.path.exists` and `os.listdir`, and every record built
by the manifest builder carries exactly this choice for its folder name. -/
theorem c5_dest_choice :
    (∀ (fs : FS) (possibleDestDirs : List String)
        (defaultDestDir folderName : String),
        chooseDestDir fs possibleDestDirs defaultDestDir folderName
          = match possibleDestDirs.find?
                (fun d => fs.pathExists (joinPath d folderName)
                  && !(fs.listdir (joinPath d folderName)).isEmpty) with
            | some d => joinPath d folderName
            | none => joinPath defaultDestDir folderName)
    ∧ (∀ (fs : FS) (g : String → String → String × Option String)
        (mo st sd dd : String) (pd ig : List String)
        (ov : List (String × List String)) (b : Bool)
        (kr : String × ManifestRecord),
        kr ∈ (generateManifest fs g mo st sd dd pd ig ov b).manifest →
        kr.2.destination_directory = chooseDestDir fs pd dd kr.2.game_name) := by
  constructor
  · intro fs possibleDestDirs defaultDestDir folderName
    rw [chooseDestDir, chooseDestDirLoop_eq]
    cases h : possibleDestDirs.find?
        (fun d => fs.pathExists (joinPath d folderName)
          && !(fs.listdir (joinPath d folderName)).isEmpty) with
    | none => rfl
    | some d => rfl
  · intro fs g mo st sd dd pd ig ov b kr hm
    unfold generateManifest at hm
    cases hd : fs.isdir sd with
    | false => rw [hd] at hm; simp at hm
    | true =>
        rw [hd] at hm
        simp only [if_true, List.mem_map] at hm
        obtain ⟨kf, _, rfl⟩ := hm
        rfl

/-- Filesystem for the C5 witness: the destination is already populated in
the *second* possible destination directory. -/
def fsC5 : FS where
  isdir := fun p => decide (p = "/src")
  pathExists := fun p => decide (p = "/d2/My Game")
  listdir := fun p =>
    if p = "/src" then ["mygame"]
    else if p = "/d2/My Game" then ["stuff"] else []

/-- Identity resolver for the C5 witness. -/
def gC5 : String → String → String × Option String :=
  fun _ _ => ("My Game", none)

/-- The record the builder produces for the C5 witness game. -/
def krC5 : String × ManifestRecord :=
  ("mygame",
    { game_name := "My Game"
      game_version := none
      source_directory := "/src/mygame"
      destination_directory := "/d2/My Game"
      sorted_installers := [] })

/-- Witness for C5: the record built for `mygame` points at
`/d2/My Game` (second entry of the possible destinations), as
`chooseDestDir` prescribes. -/
theorem c5_dest_choice_witness :
    krC5 ∈ (generateManifest fsC5 gC5 "/out" "t" "/src" "/d0" ["/d1", "/d2"]
        [] [] false).manifest
    ∧ krC5.2.destination_directory
        = chooseDestDir fsC5 ["/d1", "/d2"] "/d0" krC5.2.game_name :=
  ⟨by decide,
    c5_dest_choice.2 fsC5 gC5 "/out" "t" "/src" "/d0" ["/d1", "/d2"] [] []
      false krC5 (by decide)⟩

/-! ## C9 -/

/-- Claim C9 (confirmed): a missing or non-directory source directory makes
`generate_manifest` return an empty manifest without persisting any
manifest file (the totality of `generateManifest` reflects that the early
return raises nothing; the logged warning is outside the model). -/
theorem c9_missing_source :
    ∀ (fs : FS) (g : String → String → String × Option String)
      (mo st sd dd : String) (pd ig : List String)
      (ov : List (String × List String)) (b : Bool),
      fs.isdir sd = false →
      (generateManifest fs g mo st sd dd pd ig ov b).manifest = []
      ∧ (generateManifest fs g mo st sd dd pd ig ov b).savedPath = none := by
  intro fs g mo st sd dd pd ig ov b h
  unfold generateManifest
  rw [h]
  exact ⟨rfl, rfl⟩

/-- Filesystem for the C9 witness: nothing is a directory. -/
def fsC9 : FS where
  isdir := fun _ => false
  pathExists := fun _ => false
  listdir := fun _ => []

/-- Resolver stub for the C9 witness. -/
def gC9 : String → String → String × Option String :=
  fun _ _ => ("", none)

/-- Witness for C9 at a concrete missing source directory. -/
theorem c9_missing_source_witness :
    fsC9.isdir "/nope" = false
    ∧ (generateManifest fsC9 gC9 "/out" "gog-games" "/nope" "/d" [] [] []
        false).manifest = []
    ∧ (generateManifest fsC9 gC9 "/out" "gog-games" "/nope" "/d" [] [] []
        false).savedPath = none :=
  ⟨rfl,
    c9_missing_source fsC9 gC9 "/out" "gog-games" "/nope" "/d" [] [] [] false
      rfl⟩

/-! ## C10 -/

/-- Claim C10 (confirmed): every game key the grouper selects appears as a
manifest key — the builder adds a full record unconditionally, so a game
with an empty resolved installer set is still present — and such a game is
excluded only downstream, by the unpack loop's skip of falsy
`sorted_installers`. -/
theorem c10_keys_preserved :
    ∀ (fs : FS) (g : String → String → String × Option String)
      (mo st sd dd : String) (pd ig : List String)
      (ov : List (String × List String)) (b : Bool),
      fs.isdir sd = true →
      ((generateManifest fs g mo st sd dd pd ig ov b).manifest.map Prod.fst
          = (groupLatest st (fs.listdir sd) ig).map Prod.fst)
      ∧ (∀ kr ∈ (generateManifest fs g mo st sd dd pd ig ov b).manifest,
          kr.2.sorted_installers = [] →
          kr ∉ unpackGamesToProcess
            (generateManifest fs g mo st sd dd pd ig ov b).manifest) := by
  intro fs g mo st sd dd pd ig ov b h
  constructor
  · unfold generateManifest
    rw [h]
    simp only [if_true, List.map_map]
    exact List.map_congr_left (fun kf _ => rfl)
  · intro kr _ he hc
    unfold unpackGamesToProcess at hc
    rw [List.mem_filter, he] at hc
    exact absurd hc.2 (by decide)

/-- Filesystem for the C10 witness: one game folder containing no installer
at all. -/
def fsC10 : FS where
  isdir := fun p => decide (p = "/s")
  pathExists := fun _ => false
  listdir := fun p => if p = "/s" then ["emptygame"] else []

/-- Resolver stub for the C10 witness. -/
def gC10 : String → String → String × Option String :=
  fun _ _ => ("Empty", none)

/-- The record the builder produces for the installer-less game of the C10
witness. -/
def krC10 : String × ManifestRecord :=
  ("emptygame",
    { game_name := "Empty"
      game_version := none
      source_directory := "/s/emptygame"
      destination_directory := "/d/Empty"
      sorted_installers := [] })

/-- Witness for C10: the installer-less game still gets a manifest entry
(`sorted_installers = []`) and is dropped only by the unpack-stage filter. -/
theorem c10_keys_preserved_witness :
    fsC10.isdir "/s" = true
    ∧ ((generateManifest fsC10 gC10 "/o" "t" "/s" "/d" [] [] [] false).manifest.map
        Prod.fst = (groupLatest "t" (fsC10.listdir "/s") []).map Prod.fst)
    ∧ krC10 ∈ (generateManifest fsC10 gC10 "/o" "t" "/s" "/d" [] [] []
        false).manifest
    ∧ krC10 ∉ unpackGamesToProcess
        (generateManifest fsC10 gC10 "/o" "t" "/s" "/d" [] [] [] false).manifest :=
  ⟨by decide,
    (c10_keys_preserved fsC10 gC10 "/o" "t" "/s" "/d" [] [] [] false rfl).1,
    by decide,
    (c10_keys_preserved fsC10 gC10 "/o" "t" "/s" "/d" [] [] [] false rfl).2
      krC10 (by decide) (by decide)⟩

/-! ## C7 -/

/-- Skipping ignored names inside the grouping fold is the same as folding
over the pre-filtered name list. -/
theorem groupFoldAux (st : String) (igs : List String) :
    ∀ (names : List String) (acc : List (String × List (Option Nat × String))),
      names.foldl
        (fun gs name =>
          if igs.any (fun p => igFullmatch p name) then gs
          else
            let kv := extractKeyVer st name
            addToGroups gs kv.1 (kv.2, name)) acc
      = (names.filter (fun n => !(igs.any (fun p => igFullmatch p n)))).foldl
          (fun gs name =>
            let kv := extractKeyVer st name
            addToGroups gs kv.1 (kv.2, name)) acc := by
  intro names
  induction names with
  | nil => intro acc; rfl
  | cons n t ih =>
      intro acc
      cases hn : igs.any (fun p => igFullmatch p n) with
      | true =>
          rw [List.foldl_cons, List.filter_cons]
          simp only [hn, Bool.not_true, Bool.false_eq_true, eq_self_iff_true,
            if_true, if_false]
          exact ih acc
      | false =>
          rw [List.foldl_cons, List.filter_cons]
          simp only [hn, Bool.not_false, Bool.false_eq_true, eq_self_iff_true,
            if_true, if_false, List.foldl_cons]
          exact ih _

/-- Claim C7 (amended): a source folder name is dropped by the grouper if
and only if it fully matches at least one ignore pattern, where `*` matches
any sequence of *non-newline* characters (the code's `.*`) and every other
character matches itself; e.g. `*_old` excludes `mygame_old`.  The equation
says grouping with ignore patterns equals grouping the pre-filtered names,
so a name is excluded exactly when some pattern matches it. -/
theorem c7_amended :
    (∀ (st : String) (names igs : List String),
        groupLatest st names igs
          = groupLatest st
              (names.filter (fun n => !(igs.any (fun p => igFullmatch p n))))
              [])
    ∧ igFullmatch "*_old" "mygame_old" = true := by
  constructor
  · intro st names igs
    unfold groupLatest groupFold
    rw [groupFoldAux]
    rfl
  · decide

/-- A folder name containing a newline, for the C7 counterexample. -/
def c7name : String := String.mk ['m', 'y', '\n', 'x', '_', 'o', 'l', 'd']

/-- Claim C7 (counterexample): under the claim's reading of `*` ("any
character sequence") the name fully matches `*_old`, yet the grouper does
not drop it — Python's `.*` cannot cross the newline, so the folder stays
in the manifest. -/
theorem c7_counterexample :
    specFullmatch "*_old" c7name = true
    ∧ igFullmatch "*_old" c7name = false
    ∧ groupLatest "t" [c7name] ["*_old"] = [(c7name, c7name)] := by
  decide

/-! ## C6 helper lemmas -/

/-- A `[\w\-]` character is not whitespace. -/
theorem not_space_of_word {c : Char} (h : isWordChar c = true) :
    pyIsSpace c = false := by
  cases hc : pyIsSpace c with
  | false => rfl
  | true =>
      exfalso
      simp only [pyIsSpace, Bool.or_eq_true, decide_eq_true_eq, or_assoc] at hc
      rcases hc with h1 | h1 | h1 | h1 | h1 | h1 <;> subst h1 <;>
        exact absurd h (by decide)

/-- `dropWhile` is the identity when the head (if any) fails the predicate;
stated for lists whose members all fail it. -/
theorem dropWhile_eq_self_of_all {l : List Char}
    (h : ∀ c ∈ l, pyIsSpace c = false) : l.dropWhile pyIsSpace = l := by
  cases l with
  | nil => rfl
  | cons c t => simp [List.dropWhile_cons, h c (List.mem_cons_self c t)]

/-- `str.strip` is the identity on whitespace-free text. -/
theorem pyStrip_eq_self {l : List Char} (h : ∀ c ∈ l, pyIsSpace c = false) :
    pyStrip l = l := by
  unfold pyStrip
  rw [dropWhile_eq_self_of_all h,
    dropWhile_eq_self_of_all (fun c hc => h c (List.mem_reverse.mp hc)),
    List.reverse_reverse]

/-- `str.strip` ignores a leading whitespace character. -/
theorem pyStrip_cons_space {c : Char} (l : List Char) (h : pyIsSpace c = true) :
    pyStrip (c :: l) = pyStrip l := by
  unfold pyStrip
  rw [List.dropWhile_cons, if_pos h]

/-- The greedy `[\w\-]+` run over `key ++ ':' :: rest` is exactly the key. -/
theorem takeWhile_append_colon (k r : List Char)
    (hk : ∀ c ∈ k, isWordChar c = true) :
    (k ++ ':' :: r).takeWhile isWordChar = k := by
  induction k with
  | nil =>
      have h : isWordChar ':' = false := by decide
      simp [List.takeWhile_cons, h]
  | cons c t ih =>
      simp [List.takeWhile_cons, hk c (List.mem_cons_self c t),
        ih (fun c' hc' => hk c' (List.mem_cons_of_mem c hc'))]

/-- Parsing a well-formed written line `key ++ ": " ++ value` recovers the
key and the stripped value. -/
theorem parseMetaLine_mk (k w : List Char) (hk : k ≠ [])
    (hkw : ∀ c ∈ k, isWordChar c = true) :
    parseMetaLine (k ++ ':' :: ' ' :: w) = some (k, pyStrip w) := by
  cases k with
  | nil => exact absurd rfl hk
  | cons c k' =>
      have hc : pyIsSpace c = false :=
        not_space_of_word (hkw c (List.mem_cons_self c k'))
      have htw : ((c :: k') ++ ':' :: ' ' :: w).takeWhile isWordChar = c :: k' :=
        takeWhile_append_colon (c :: k') (' ' :: w) hkw
      have hdw : ((c :: k') ++ ':' :: ' ' :: w).dropWhile pyIsSpace
          = (c :: k') ++ ':' :: ' ' :: w := by
        rw [List.cons_append, List.dropWhile_cons, if_neg (by simp [hc])]
      simp only [parseMetaLine]
      rw [hdw, htw]
      have hne : (c :: k').isEmpty = false := rfl
      rw [hne]
      simp only [Bool.false_eq_true, if_false]
      rw [List.drop_left (c :: k') (':' :: ' ' :: w)]
      have hscol : ¬pyIsSpace ':' = true := by decide
      rw [List.dropWhile_cons, if_neg hscol]
      show some (c :: k', pyStrip (' ' :: w)) = some (c :: k', pyStrip w)
      rw [pyStrip_cons_space w (by decide)]

/-- Well-formedness of a metadata value for exact round-tripping: a null, or
a string already stripped and free of newlines (over `List Char`). -/
def validValL : Option (List Char) → Prop
  | none => True
  | some s => pyStrip s = s ∧ '\n' ∉ s

/-- The normalisation `read_meta_file` applies to a written value: `""` and
case-insensitive `"none"` (including a written null) come back as null
(over `List Char`). -/
def normValL : Option (List Char) → Option (List Char)
  | none => none
  | some s => if s.isEmpty || pyLower s = "none".data then none else some s

/-- The written line minus its terminating newline. -/
def metaBody (k : List Char) (v : Option (List Char)) : List Char :=
  pyStrip k ++ ':' :: ' ' :: pyStrip (metaValStr v)

theorem metaContent_cons (k : List Char) (v : Option (List Char))
    (t : List (List Char × Option (List Char))) :
    metaContent ((k, v) :: t) = metaBody k v ++ '\n' :: metaContent t := by
  show metaLine k v ++ metaContent t = _
  unfold metaLine metaBody
  simp [List.append_assoc]

/-- Under validity, a written line body contains no newline. -/
theorem newline_not_in_metaBody (k : List Char) (v : Option (List Char))
    (hkw : ∀ c ∈ k, isWordChar c = true) (hv : validValL v) :
    '\n' ∉ metaBody k v := by
  unfold metaBody
  rw [pyStrip_eq_self (fun c hc => not_space_of_word (hkw c hc))]
  intro hmem
  simp only [List.mem_append, List.mem_cons] at hmem
  rcases hmem with h | h | h | h
  · exact absurd (hkw _ h) (by decide)
  · exact absurd h (by decide)
  · exact absurd h (by decide)
  · cases v with
    | none => exact absurd h (by decide)
    | some s =>
        obtain ⟨hs1, hs2⟩ := hv
        change '\n' ∈ pyStrip s at h
        rw [hs1] at h
        exact hs2 h

/-- Parsing a valid written line recovers key and written value. -/
theorem parse_metaBody (k : List Char) (v : Option (List Char)) (hk : k ≠ [])
    (hkw : ∀ c ∈ k, isWordChar c = true) (hv : validValL v) :
    parseMetaLine (metaBody k v) = some (k, pyStrip (metaValStr v)) := by
  unfold metaBody
  rw [pyStrip_eq_self (fun c hc => not_space_of_word (hkw c hc))]
  rw [parseMetaLine_mk k (pyStrip (metaValStr v)) hk hkw]
  cases v with
  | none => rfl
  | some s =>
      obtain ⟨hs1, _⟩ := hv
      show some (k, pyStrip (pyStrip s)) = some (k, pyStrip s)
      simp [hs1]

/-- The normalisation of a valid written value matches `normValL`. -/
theorem metaValueNorm_eq (v : Option (List Char)) (hv : validValL v) :
    metaValueNorm (pyStrip (metaValStr v)) = normValL v := by
  cases v with
  | none => rfl
  | some s =>
      obtain ⟨hs1, _⟩ := hv
      show metaValueNorm (pyStrip s) = _
      rw [hs1]
      rfl

/-- Splitting at the first newline of well-formed content. -/
theorem splitNl_append (a b : List Char) (h : '\n' ∉ a) :
    splitNl (a ++ '\n' :: b) = a :: splitNl b := by
  induction a with
  | nil => simp [splitNl]
  | cons c t ih =>
      have hc : ¬c = '\n' := fun e => h (by simp [e])
      have ht : '\n' ∉ t := fun hm => h (List.mem_cons_of_mem c hm)
      rw [List.cons_append]
      show splitNl (c :: (t ++ '\n' :: b)) = _
      simp only [splitNl, hc, if_false, ih ht, decide_eq_true_eq]

/-- Python `dict` assignment for a fresh key appends. -/
theorem dictInsert_append (d : List (List Char × Option (List Char)))
    (k : List Char) (v : Option (List Char)) (h : k ∉ d.map Prod.fst) :
    dictInsert d k v = d ++ [(k, v)] := by
  have hany : d.any (fun kv => decide (kv.1 = k)) = false := by
    rw [Bool.eq_false_iff]
    intro htrue
    rw [List.any_eq_true] at htrue
    obtain ⟨kv, hkv, hdec⟩ := htrue
    exact h (List.mem_map.mpr ⟨kv, hkv, of_decide_eq_true hdec⟩)
  unfold dictInsert
  rw [hany]
  simp

/-- The parsing fold of `read_meta_file` over well-formed written content:
each line appends its (normalised) pair to the accumulating record. -/
theorem readMetaLines_go :
    ∀ (l : List (List Char × Option (List Char)))
      (acc : List (List Char × Option (List Char))),
      (∀ kv ∈ l, kv.1 ≠ [] ∧ (∀ c ∈ kv.1, isWordChar c = true)
        ∧ validValL kv.2) →
      (l.map Prod.fst).Nodup →
      (∀ kv ∈ l, kv.1 ∉ acc.map Prod.fst) →
      (splitNl (metaContent l)).foldl
          (fun d line =>
            match parseMetaLine line with
            | some kv => dictInsert d kv.1 (metaValueNorm kv.2)
            | none => d) acc
        = acc ++ l.map (fun kv => (kv.1, normValL kv.2)) := by
  intro l
  induction l with
  | nil =>
      intro acc _ _ _
      simp [metaContent, splitNl, parseMetaLine]
  | cons kv t ih =>
      intro acc hval hnd hdisj
      obtain ⟨k, v⟩ := kv
      obtain ⟨hk, hkw, hv⟩ := hval (k, v) (List.mem_cons_self _ _)
      have hnd2 : (k :: t.map Prod.fst).Nodup := by
        rw [List.map_cons] at hnd; exact hnd
      obtain ⟨hknotin, htnd⟩ := List.nodup_cons.mp hnd2
      have hnl := newline_not_in_metaBody k v hkw hv
      rw [metaContent_cons, splitNl_append _ _ hnl, List.foldl_cons]
      have hstep : (match parseMetaLine (metaBody k v) with
            | some kv => dictInsert acc kv.1 (metaValueNorm kv.2)
            | none => acc)
          = acc ++ [(k, normValL v)] := by
        rw [parse_metaBody k v hk hkw hv]
        show dictInsert acc k (metaValueNorm (pyStrip (metaValStr v)))
            = acc ++ [(k, normValL v)]
        rw [metaValueNorm_eq v hv]
        exact dictInsert_append acc k (normValL v)
          (hdisj (k, v) (List.mem_cons_self _ _))
      show (splitNl (metaContent t)).foldl _
          (match parseMetaLine (metaBody k v) with
            | some kv => dictInsert acc kv.1 (metaValueNorm kv.2)
            | none => acc) = _
      rw [hstep]
      have hval' : ∀ kv ∈ t, kv.1 ≠ [] ∧ (∀ c ∈ kv.1, isWordChar c = true)
          ∧ validValL kv.2 :=
        fun kv hkv => hval kv (List.mem_cons_of_mem _ hkv)
      have hdisj' : ∀ kv ∈ t,
          kv.1 ∉ (acc ++ [(k, normValL v)]).map Prod.fst := by
        intro kv' hkv' hmem
        rw [List.map_append, List.mem_append] at hmem
        rcases hmem with hm | hm
        · exact hdisj kv' (List.mem_cons_of_mem _ hkv') hm
        · have : kv'.1 = k := by simpa using hm
          exact hknotin (this ▸ List.mem_map.mpr ⟨kv', hkv', rfl⟩)
      rw [ih (acc ++ [(k, normValL v)]) hval' htnd hdisj']
      rw [List.map_cons]
      simp [List.append_assoc]

/-- Well-formed metadata key: non-empty, all characters in `[\w\-]`. -/
def validMetaKey (k : String) : Bool :=
  !k.data.isEmpty && k.data.all isWordChar

/-- Well-formed metadata value: null, or a string that equals its own
`strip()` and contains no newline. -/
def validMetaVal : Option String → Bool
  | none => true
  | some s => decide (pyStrip s.data = s.data) && !(decide ('\n' ∈ s.data))

/-- The value normalisation of the round trip: `""` and case-insensitive
`"none"` (and null itself) read back as null, everything else unchanged. -/
def normMetaVal : Option String → Option String
  | none => none
  | some s =>
      if s.data.isEmpty || pyLower s.data = "none".data then none else some s

theorem validMetaKey_conv {k : String} (h : validMetaKey k = true) :
    k.data ≠ [] ∧ ∀ c ∈ k.data, isWordChar c = true := by
  simp only [validMetaKey, Bool.and_eq_true, Bool.not_eq_true',
    List.all_eq_true] at h
  refine ⟨?_, h.2⟩
  intro he
  rw [he] at h
  exact absurd h.1 (by decide)

theorem validMetaVal_conv {v : Option String} (h : validMetaVal v = true) :
    validValL (v.map String.data) := by
  cases v with
  | none => trivial
  | some s =>
      simp only [validMetaVal, Bool.and_eq_true, Bool.not_eq_true',
        decide_eq_true_eq, decide_eq_false_iff_not] at h
      exact ⟨h.1, h.2⟩

theorem nodup_data {l : List (String × Option String)}
    (h : (l.map Prod.fst).Nodup) :
    ((l.map (fun kv => (kv.1.data, kv.2.map String.data))).map Prod.fst).Nodup := by
  have hinj : Function.Injective String.data :=
    fun a b hh => congrArg String.mk hh
  rw [List.map_map]
  have he : (Prod.fst ∘ fun kv : String × Option String =>
      (kv.1.data, kv.2.map String.data)) = String.data ∘ Prod.fst := rfl
  rw [he, ← List.map_map]
  exact List.Nodup.map hinj h

/-- Claim C6 (amended): writing a DestinationMetadata record whose keys
match `[\w-]+` and whose string values are newline-free and equal to their
own `strip()` and then reading it back yields the original mapping, except
that any value equal to `""` or case-insensitively equal to `"none"`
(including a null, serialised as `None`) is read back as null. -/
theorem c6_roundtrip :
    ∀ l : List (String × Option String),
      (∀ kv ∈ l, validMetaKey kv.1 = true ∧ validMetaVal kv.2 = true) →
      (l.map Prod.fst).Nodup →
      read_meta_file (create_meta_file l)
        = l.map (fun kv => (kv.1, normMetaVal kv.2)) := by
  intro l hval hnd
  have hgo := readMetaLines_go
    (l.map (fun kv => (kv.1.data, kv.2.map String.data))) []
    (by
      intro kv hkv
      rw [List.mem_map] at hkv
      obtain ⟨⟨k, v⟩, hmem, rfl⟩ := hkv
      obtain ⟨hk, hvv⟩ := hval (k, v) hmem
      obtain ⟨hk1, hk2⟩ := validMetaKey_conv hk
      exact ⟨hk1, hk2, validMetaVal_conv hvv⟩)
    (nodup_data hnd)
    (fun kv _ hmem => List.not_mem_nil _ hmem)
  calc read_meta_file (create_meta_file l)
      = ((splitNl (metaContent
            (l.map (fun kv => (kv.1.data, kv.2.map String.data))))).foldl
          (fun d line =>
            match parseMetaLine line with
            | some kv => dictInsert d kv.1 (metaValueNorm kv.2)
            | none => d) []).map
          (fun (kv : List Char × Option (List Char)) =>
            (String.mk kv.1, kv.2.map String.mk)) := rfl
    _ = ([] ++ (l.map (fun (kv : String × Option String) =>
            (kv.1.data, kv.2.map String.data))).map
          (fun (kv : List Char × Option (List Char)) =>
            (kv.1, normValL kv.2))).map
          (fun (kv : List Char × Option (List Char)) =>
            (String.mk kv.1, kv.2.map String.mk)) := by rw [hgo]
    _ = l.map (fun kv => (kv.1, normMetaVal kv.2)) := by
        rw [List.nil_append, List.map_map, List.map_map]
        apply List.map_congr_left
        intro kv _
        obtain ⟨k, v⟩ := kv
        cases v with
        | none => rfl
        | some s =>
            show (String.mk k.data,
                (if s.data.isEmpty || pyLower s.data = "none".data then none
                  else some s.data).map String.mk)
              = (k, if s.data.isEmpty || pyLower s.data = "none".data then none
                  else some s)
            cases hcond : (s.data.isEmpty || pyLower s.data = "none".data) with
            | true => rfl
            | false => rfl

/-- Claim C6 (counterexample): the value `" v "` is neither empty nor
`"none"`, yet it does not round-trip — the writer strips it, so it reads
back as `"v"`. -/
theorem c6_counterexample :
    ((" v " : String) ≠ "" ∧ pyLower " v ".data ≠ "none".data)
    ∧ read_meta_file (create_meta_file [("k", some " v ")])
        ≠ [("k", some " v ")]
    ∧ read_meta_file (create_meta_file [("k", some " v ")])
        = [("k", some "v")] := by
  decide

/-- Witness for C6 (amended) at a concrete two-entry record. -/
theorem c6_roundtrip_witness :
    ((∀ kv ∈ ([("game_name", some "Foo"), ("game_version", none)] :
          List (String × Option String)),
        validMetaKey kv.1 = true ∧ validMetaVal kv.2 = true)
      ∧ (([("game_name", some "Foo"), ("game_version", none)] :
          List (String × Option String)).map Prod.fst).Nodup)
    ∧ read_meta_file (create_meta_file
          [("game_name", some "Foo"), ("game_version", none)])
        = [("game_name", some "Foo"), ("game_version", none)] := by
  refine ⟨⟨by decide, by decide⟩, ?_⟩
  have h := c6_roundtrip [("game_name", some "Foo"), ("game_version", none)]
    (by decide) (by decide)
  rw [h]
  decide
